import Mathlib

/-!
Verification of the `django-unicorn` repository fragment: the
`HtmlInputsView` example component (`example/unicorn/components/html_inputs.py`)
and the utility functions exercised by `tests/test_utils.py`
(`CacheableComponent`, `generate_checksum`, `get_method_arguments`,
`get_type_hints`, `is_non_string_sequence`, `sanitize_html`).

The component and its action methods are embedded directly from the Python
source.  The bodies of the utility functions live outside the given sources
(only their tests are present), so those are modelled from the
specification's description of their behaviour, as marked on each
definition.
-/

namespace DjangoUnicorn

/-! ## The `HtmlInputsView` component (`example/unicorn/components/html_inputs.py`) -/

/-- The class-level `ALL_STATES` tuple of `HtmlInputsView`, verbatim from the
source. -/
def allStatesDefault : List String :=
  ["Alabama", "Alaska", "Arizona", "Arkansas", "California", "Colorado",
   "Connecticut", "Delaware", "Florida", "Georgia", "Hawaii", "Idaho",
   "Illinois", "Indiana", "Iowa", "Kansas", "Kentucky", "Louisiana",
   "Maine", "Maryland", "Massachusetts", "Michigan", "Minnesota",
   "Mississippi", "Missouri", "Montana", "Nebraska", "Nevada",
   "New Hampshire", "New Jersey", "New Mexico", "New York",
   "North Carolina", "North Dakota", "Ohio", "Oklahoma", "Oregon",
   "Pennsylvania", "Rhode Island", "South Carolina", "South Dakota",
   "Tennessee", "Texas", "Utah", "Vermont", "Virginia", "Washington",
   "West Virginia", "Wisconsin", "Wyoming"]

/-- The reactive state of an `HtmlInputsView` instance: the class attributes
declared in the Python source, with their declared initial values as
defaults.  `name` is assigned by the `set_name` action. -/
structure HtmlInputsView where
  is_checked : Bool := false
  thing : String := "🐙"
  things : List String := ["alien"]
  pie : String := "cherry"
  paragraph : String := ""
  state : String := ""
  ALL_STATES : List String := allStatesDefault
  name : String := ""
deriving Repr, DecidableEq

/-- `set_name(self, name=None)`: `if name: self.name = name` else
`self.name = "Universe"`.  A Python string argument is truthy exactly when
it is present and non-empty. -/
def HtmlInputsView.set_name (c : HtmlInputsView) (n : Option String) : HtmlInputsView :=
  match n with
  | some s => if s = "" then { c with name := "Universe" } else { c with name := s }
  | none => { c with name := "Universe" }

/-- `clear_states(self)`: `self.state = ""`. -/
def HtmlInputsView.clear_states (c : HtmlInputsView) : HtmlInputsView :=
  { c with state := "" }

/-- `states(self)`: `if not self.state: return []` then
`[s for s in self.ALL_STATES if s.lower().startswith(self.state.lower())]`. -/
def HtmlInputsView.states (c : HtmlInputsView) : List String :=
  if c.state = "" then []
  else c.ALL_STATES.filter (fun s => s.toLower.startsWith c.state.toLower)

/-! ## Claims C5, C6, C7 -/

/-- C5: for every component, if `state` is the empty string the `states()`
action returns the empty list; otherwise it returns exactly the entries of
`ALL_STATES` whose lowercase form starts with the lowercase form of
`state`, in the order they appear in `ALL_STATES`. -/
theorem states_filters_all_states (c : HtmlInputsView) :
    (c.state = "" → c.states = []) ∧
    (c.state ≠ "" →
      c.states.Sublist c.ALL_STATES ∧
      ∀ s, s ∈ c.states ↔
        s ∈ c.ALL_STATES ∧ s.toLower.startsWith c.state.toLower) := by
  constructor
  · intro h
    simp [HtmlInputsView.states, h]
  · intro h
    rw [HtmlInputsView.states, if_neg h]
    refine ⟨List.filter_sublist _, ?_⟩
    intro s
    simp [List.mem_filter]

theorem states_filters_all_states_witness :
    (({ state := "" } : HtmlInputsView).states = []) ∧
    (({ state := "al" } : HtmlInputsView).states.Sublist
        ({ state := "al" } : HtmlInputsView).ALL_STATES ∧
      ∀ s, s ∈ ({ state := "al" } : HtmlInputsView).states ↔
        s ∈ ({ state := "al" } : HtmlInputsView).ALL_STATES ∧
          s.toLower.startsWith (("al" : String).toLower)) :=
  ⟨(states_filters_all_states { state := "" }).1 rfl,
   (states_filters_all_states { state := "al" }).2 (by decide)⟩

/-- C6: `clear_states` sets the `state` field to the empty string and leaves
every other declared field of the component unchanged. -/
theorem clear_states_frame (c : HtmlInputsView) :
    c.clear_states.state = "" ∧
    c.clear_states.is_checked = c.is_checked ∧
    c.clear_states.thing = c.thing ∧
    c.clear_states.things = c.things ∧
    c.clear_states.pie = c.pie ∧
    c.clear_states.paragraph = c.paragraph ∧
    c.clear_states.name = c.name ∧
    c.clear_states.ALL_STATES = c.ALL_STATES := by
  refine ⟨rfl, rfl, rfl, rfl, rfl, rfl, rfl, rfl⟩

/-- C7: `set_name` sets `name` to the given argument when the argument is a
present, non-empty string, and to `"Universe"` when it is omitted (`None`)
or the empty string. -/
theorem set_name_spec (c : HtmlInputsView) :
    (∀ s : String, s ≠ "" → (c.set_name (some s)).name = s) ∧
    (c.set_name none).name = "Universe" ∧
    (c.set_name (some "")).name = "Universe" := by
  refine ⟨?_, rfl, rfl⟩
  intro s hs
  simp [HtmlInputsView.set_name, hs]

theorem set_name_spec_witness :
    (({} : HtmlInputsView).set_name (some "Nova")).name = "Nova" ∧
    (({} : HtmlInputsView).set_name none).name = "Universe" ∧
    (({} : HtmlInputsView).set_name (some "")).name = "Universe" :=
  ⟨(set_name_spec {}).1 "Nova" (by decide),
   (set_name_spec {}).2.1,
   (set_name_spec {}).2.2⟩

/-! ## `sanitize_html` (`django_unicorn.utils`) -/

/-- Modelled from the spec: the HTML-safe JSON escaping performed by
`sanitize_html`, whose body is not in the given sources.  It is a
per-character translation table sending the angle brackets to their unicode
escape sequences, as exhibited by `test_sanitize_html`. -/
def jsonScriptEscapes (c : Char) : Option String :=
  if c = '<' then some "\\u003C"
  else if c = '>' then some "\\u003E"
  else none

/-- Apply a per-character translation table to a character list: each
character is replaced by its table entry when one exists, and kept
otherwise (Python's `str.translate`). -/
def translateChars (table : Char → Option String) : List Char → List Char
  | [] => []
  | c :: cs => ((table c).getD (String.singleton c)).data ++ translateChars table cs

/-- Modelled from the spec: `sanitize_html` escapes a JSON string so it is
safe to embed in HTML, by translating each character through
`jsonScriptEscapes`. -/
def sanitize_html (s : String) : String :=
  String.mk (translateChars jsonScriptEscapes s.data)

/-- The per-character replacement described by claim C3's own words: an
opening angle bracket becomes the six-character escape sequence backslash
`u003C`, a closing one becomes backslash `u003E`, and every other
character stands unchanged. -/
def claimEscapeChar (c : Char) : List Char :=
  if c = '<' then ['\\', 'u', '0', '0', '3', 'C']
  else if c = '>' then ['\\', 'u', '0', '0', '3', 'E']
  else [c]

/-- The whole-string transformation described by claim C3: each character is
replaced independently and in place by `claimEscapeChar`. -/
def claimSanitize : List Char → List Char
  | [] => []
  | c :: cs => claimEscapeChar c ++ claimSanitize cs

theorem translateChars_eq_claimSanitize (cs : List Char) :
    translateChars jsonScriptEscapes cs = claimSanitize cs := by
  induction cs with
  | nil => rfl
  | cons c cs ih =>
    rw [translateChars, claimSanitize, ih]
    by_cases h1 : c = '<'
    · simp [jsonScriptEscapes, claimEscapeChar, h1]
    · by_cases h2 : c = '>'
      · simp [jsonScriptEscapes, claimEscapeChar, h1, h2]
      · simp [jsonScriptEscapes, claimEscapeChar, h1, h2, String.singleton]

/-- C3: `sanitize_html` replaces each opening angle bracket with the escape
sequence backslash `u003C` and each closing one with backslash `u003E`,
and leaves every other character unchanged in its original
position: the output is the independent per-character replacement
`claimEscapeChar` applied across the input, and that replacement keeps
every non-angle-bracket character as itself. -/
theorem sanitize_html_escapes_angle_brackets (s : String) :
    (sanitize_html s).data = claimSanitize s.data ∧
    claimEscapeChar '<' = ['\\', 'u', '0', '0', '3', 'C'] ∧
    claimEscapeChar '>' = ['\\', 'u', '0', '0', '3', 'E'] ∧
    ∀ c : Char, c ≠ '<' → c ≠ '>' → claimEscapeChar c = [c] := by
  refine ⟨translateChars_eq_claimSanitize s.data, rfl, rfl, ?_⟩
  intro c h1 h2
  simp [claimEscapeChar, h1, h2]

theorem sanitize_html_escapes_angle_brackets_witness :
    (sanitize_html "<b>").data = claimSanitize "<b>".data ∧
    claimEscapeChar 'b' = ['b'] :=
  ⟨(sanitize_html_escapes_angle_brackets "<b>").1,
   (sanitize_html_escapes_angle_brackets "<b>").2.2.2 'b' (by decide) (by decide)⟩

/-! ## `generate_checksum` (`django_unicorn.utils`) -/

/-- The UTF-8 byte encoding of a string, as a list of byte values
(Python's `str.encode`). -/
def strEncode (s : String) : List Nat :=
  s.toUTF8.toList.map (fun b => b.toNat)

/-- Modelled from the spec: `generate_checksum`, whose body is not in the
given sources, computes a keyed hash over a component's serialized state.
The keyed-hash core (applied to the secret key and the payload bytes) is
abstracted as the argument `hash`; a payload given as a string is first
encoded to its UTF-8 bytes, so that string and bytes payloads are hashed
identically, as exhibited by `test_generate_checksum_bytes` and
`test_generate_checksum_str`. -/
def generate_checksum (hash : List Nat → List Nat → String) (key : List Nat)
    (data : String ⊕ List Nat) : String :=
  match data with
  | Sum.inl s => hash key (strEncode s)
  | Sum.inr bs => hash key bs

/-- C4: for every secret key and string payload, `generate_checksum` on the
string returns the same checksum as `generate_checksum` on the UTF-8 byte
encoding of that string: the keyed hash depends only on the key and the
payload content, not on whether it arrives as str or bytes. -/
theorem generate_checksum_str_eq_bytes (hash : List Nat → List Nat → String)
    (key : List Nat) (s : String) :
    generate_checksum hash key (Sum.inl s) =
      generate_checksum hash key (Sum.inr (strEncode s)) := rfl

/-! ## `get_method_arguments` and `get_type_hints` (`django_unicorn.utils`) -/

/-- A Python type annotation, identified by its type expression. -/
structure PyType where
  tyName : String
deriving DecidableEq, Repr

/-- A Python function signature: its parameters in declaration order, each
with an optional type annotation. -/
structure PyFunction where
  params : List (String × Option PyType)
deriving DecidableEq, Repr

/-- Modelled from the spec: method-signature introspection.
`get_method_arguments`, whose body is not in the given sources, returns the
function's parameter names in declaration order, as exhibited by
`test_get_method_arguments` and its type-annotation variant. -/
def get_method_arguments (f : PyFunction) : List String :=
  f.params.map Prod.fst

/-- Modelled from the spec: method-signature introspection.
`get_type_hints`, whose body is not in the given sources, returns the
mapping from each annotated parameter name to its annotated type, and the
empty mapping when no parameter is annotated, as exhibited by
`test_get_type_hints` and `test_get_type_hints_missing_type_hints`. -/
def get_type_hints (f : PyFunction) : List (String × PyType) :=
  f.params.filterMap (fun p =>
    match p.2 with
    | some t => some (p.1, t)
    | none => none)

/-- Erase every parameter's type annotation, keeping names and order. -/
def stripAnnotations (f : PyFunction) : PyFunction :=
  ⟨f.params.map (fun p => (p.1, (none : Option PyType)))⟩

/-- C8: `get_method_arguments` returns the function's parameter names in
declaration order, and erasing all type annotations does not change the
result. -/
theorem get_method_arguments_names_in_order (f : PyFunction) :
    get_method_arguments f = f.params.map Prod.fst ∧
    get_method_arguments (stripAnnotations f) = get_method_arguments f := by
  refine ⟨rfl, ?_⟩
  simp [get_method_arguments, stripAnnotations]

/-- C9: `get_type_hints` contains an entry `(name, ty)` exactly when the
function declares a parameter `name` annotated with `ty`; in particular a
function with no annotated parameters yields the empty mapping. -/
theorem get_type_hints_exactly_annotated (f : PyFunction) :
    (∀ n t, (n, t) ∈ get_type_hints f ↔ (n, some t) ∈ f.params) ∧
    ((∀ p ∈ f.params, p.2 = (none : Option PyType)) → get_type_hints f = []) := by
  constructor
  · intro n t
    rw [get_type_hints, List.mem_filterMap]
    constructor
    · rintro ⟨⟨pn, pt⟩, hmem, heq⟩
      cases pt with
      | some t0 =>
        simp only [Option.some.injEq, Prod.mk.injEq] at heq
        obtain ⟨rfl, rfl⟩ := heq
        exact hmem
      | none => simp at heq
    · intro hmem
      exact ⟨(n, some t), hmem, rfl⟩
  · intro hnone
    rw [get_type_hints, List.filterMap_eq_nil_iff]
    intro p hp
    rw [hnone p hp]

theorem get_type_hints_exactly_annotated_witness :
    ((("input_str", (⟨"str"⟩ : PyType)) ∈
        get_type_hints ⟨[("input_str", some ⟨"str"⟩)]⟩) ↔
      ("input_str", some (⟨"str"⟩ : PyType)) ∈
        [("input_str", some (⟨"str"⟩ : PyType))]) ∧
    get_type_hints ⟨[("input_str", (none : Option PyType))]⟩ = [] :=
  ⟨(get_type_hints_exactly_annotated ⟨[("input_str", some ⟨"str"⟩)]⟩).1
      "input_str" ⟨"str"⟩,
   (get_type_hints_exactly_annotated ⟨[("input_str", none)]⟩).2 (by decide)⟩

/-! ## `is_non_string_sequence` (`django_unicorn.utils`) -/

/-- A Python runtime value, to the granularity the sequence predicate
distinguishes. -/
inductive PyValue where
  | pyStr (s : String)
  | pyBytes (b : List Nat)
  | pyList (xs : List PyValue)
  | pyTuple (xs : List PyValue)
  | pySet (xs : List PyValue)
  | pyNone
deriving Repr

/-- Whether a value is an instance of the abstract `Sequence` class:
strings, bytes, lists and tuples are; sets and `None` are not. -/
def isSequenceInstance : PyValue → Bool
  | .pyStr _ => true
  | .pyBytes _ => true
  | .pyList _ => true
  | .pyTuple _ => true
  | _ => false

/-- Whether a value is a set. -/
def isSetInstance : PyValue → Bool
  | .pySet _ => true
  | _ => false

/-- Whether a value is string-like: a str or a bytes. -/
def isStringLike : PyValue → Bool
  | .pyStr _ => true
  | .pyBytes _ => true
  | _ => false

/-- Modelled from the spec: `is_non_string_sequence`, whose body is not in
the given sources.  It accepts the sequence containers (lists, tuples) and
sets while rejecting the string-like sequences (str, bytes), as exhibited
by the five `test_is_non_string_sequence_*` tests. -/
def is_non_string_sequence (v : PyValue) : Bool :=
  (isSequenceInstance v || isSetInstance v) && !(isStringLike v)

/-- C10: `is_non_string_sequence` returns `true` on every list, tuple and
set (whatever their elements, the empty ones included) and `false` on every
str and bytes, although str and bytes are themselves sequence instances. -/
theorem is_non_string_sequence_spec :
    (∀ xs, is_non_string_sequence (.pyList xs) = true) ∧
    (∀ xs, is_non_string_sequence (.pyTuple xs) = true) ∧
    (∀ xs, is_non_string_sequence (.pySet xs) = true) ∧
    (∀ s, is_non_string_sequence (.pyStr s) = false) ∧
    (∀ b, is_non_string_sequence (.pyBytes b) = false) ∧
    (∀ s, isSequenceInstance (.pyStr s) = true) ∧
    (∀ b, isSequenceInstance (.pyBytes b) = true) :=
  ⟨fun _ => rfl, fun _ => rfl, fun _ => rfl, fun _ => rfl, fun _ => rfl,
   fun _ => rfl, fun _ => rfl⟩

/-! ## `CacheableComponent` (`django_unicorn.utils`)

A component tree: every component holds a transient `request` reference, a
transient `extra_context` reference, and an ordered list of child
components.  `R` is the type of request objects and `E` the type of
extra-context values. -/

mutual
inductive Component (R E : Type) : Type where
  | node : Option R → Option E → CompList R E → Component R E
inductive CompList (R E : Type) : Type where
  | nil : CompList R E
  | cons : Component R E → CompList R E → CompList R E
end

deriving instance DecidableEq for Component
deriving instance DecidableEq for CompList

variable {R E : Type}

/-- The transient `request` reference of a component. -/
def Component.request : Component R E → Option R
  | .node r _ _ => r

/-- The transient `extra_context` reference of a component. -/
def Component.extra_context : Component R E → Option E
  | .node _ e _ => e

/-- The ordered list of child components of a component. -/
def Component.children : Component R E → CompList R E
  | .node _ _ cs => cs

mutual
/-- Null out the transient `request` and `extra_context` references of a
component and of every one of its descendants. -/
def strip : Component R E → Component R E
  | .node _ _ cs => .node none none (stripList cs)
/-- `strip` applied to every component of a list. -/
def stripList : CompList R E → CompList R E
  | .nil => .nil
  | .cons c cs => .cons (strip c) (stripList cs)
end

mutual
/-- Restore the transient fields of every component of the first tree from
the saved snapshot (the second tree), keeping the first tree's structure. -/
def restore : Component R E → Component R E → Component R E
  | .node _ _ cs, .node rs es ss => .node rs es (restoreList cs ss)
/-- `restore` applied pointwise to two lists of components; components with
no saved counterpart are kept as they are. -/
def restoreList : CompList R E → CompList R E → CompList R E
  | .nil, _ => .nil
  | .cons c cs, .nil => .cons c cs
  | .cons c cs, .cons s ss => .cons (restore c s) (restoreList cs ss)
end

/-- Modelled from the spec: entering the `CacheableComponent` scope (its
body is not in the given sources) nulls out the non-serializable references
(`request`, `extra_context`) on the component tree for the duration of a
cache write; the original values are kept aside (here, the pre-entry tree
itself plays the role of the saved dictionaries). -/
def cacheEnter (c : Component R E) : Component R E := strip c

/-- Modelled from the spec: exiting the `CacheableComponent` scope restores
the saved `request` and `extra_context` values onto every component of the
tree. -/
def cacheExit (current saved : Component R E) : Component R E :=
  restore current saved

mutual
theorem restore_strip : ∀ c : Component R E, restore (strip c) c = c
  | .node r e cs => by rw [strip, restore, restoreList_stripList]
theorem restoreList_stripList : ∀ cs : CompList R E, restoreList (stripList cs) cs = cs
  | .nil => rfl
  | .cons c cs => by rw [stripList, restoreList, restore_strip, restoreList_stripList]
end

/-- The `i`-th component of a list of children, when it exists. -/
def childAt : CompList R E → Nat → Option (Component R E)
  | .nil, _ => none
  | .cons c _, 0 => some c
  | .cons _ cs, n + 1 => childAt cs n

/-- The descendant of a component reached by following the given child
indices; the empty path reaches the component itself. -/
def descend : Component R E → List Nat → Option (Component R E)
  | c, [] => some c
  | c, i :: p => (childAt c.children i).bind (fun c2 => descend c2 p)

theorem childAt_stripList :
    ∀ (cs : CompList R E) (i : Nat),
      childAt (stripList cs) i = (childAt cs i).map strip
  | .nil, _ => rfl
  | .cons _ _, 0 => rfl
  | .cons _ cs, n + 1 => by
    rw [stripList, childAt, childAt, childAt_stripList cs n]

theorem children_strip (c : Component R E) :
    (strip c).children = stripList c.children := by
  cases c
  rfl

theorem descend_strip (p : List Nat) (c : Component R E) :
    descend (strip c) p = (descend c p).map strip := by
  induction p generalizing c with
  | nil => rfl
  | cons i p ih =>
    rw [descend, descend, children_strip, childAt_stripList]
    cases childAt c.children i with
    | none => rfl
    | some c2 => simpa using ih c2

/-- C1: entering `CacheableComponent` on a component nulls the `request`
and `extra_context` references of that component and of every one of its
descendants (every node reachable by a child path, the empty path giving
the component itself), and exiting restores the whole tree — hence each of
those fields — to exactly its pre-entry value. -/
theorem cacheable_component_descendants (c : Component R E) (p : List Nat)
    (sub : Component R E) (h : descend c p = some sub) :
    descend (cacheEnter c) p = some (strip sub) ∧
    (strip sub).request = none ∧
    (strip sub).extra_context = none ∧
    cacheExit (cacheEnter c) c = c := by
  refine ⟨?_, ?_, ?_, restore_strip c⟩
  · rw [cacheEnter, descend_strip, h, Option.map]
  · cases sub
    rfl
  · cases sub
    rfl

/-- A concrete tree shaped like
`test_restore_cached_component_children_have_request_set`: a root with two
children, the second of which has one child, every node holding a request
reference and an extra-context value. -/
def sampleTree : Component Nat String :=
  .node (some 7) (some "extra_content")
    (.cons (.node (some 7) (some "extra_content") .nil)
      (.cons
        (.node (some 7) (some "extra_content")
          (.cons (.node (some 7) (some "extra_content") .nil) .nil))
        .nil))

theorem cacheable_component_descendants_witness :
    descend (cacheEnter sampleTree) [1, 0] =
      some (strip (.node (some 7) (some "extra_content") .nil)) ∧
    (strip (.node (some 7) (some "extra_content")
        (.nil : CompList Nat String))).request = none ∧
    (strip (.node (some 7) (some "extra_content")
        (.nil : CompList Nat String))).extra_context = none ∧
    cacheExit (cacheEnter sampleTree) sampleTree = sampleTree :=
  cacheable_component_descendants sampleTree [1, 0]
    (.node (some 7) (some "extra_content") .nil) (by decide)

/-! ### The parent chain

A component with a chain of parents is a component together with the list
of its ancestor frames: each frame holds the ancestor's own transient
fields and the siblings standing before and after the child on the way
down.  Plugging the frames back in rebuilds the root of the whole
parent/child tree, which is what `CacheableComponent` ascends to before
stripping. -/

/-- One ancestor of a component: its own transient `request` and
`extra_context` references and the siblings surrounding the child it leads
to. -/
structure Frame (R E : Type) where
  request : Option R
  extra_context : Option E
  before : CompList R E
  after : CompList R E

/-- Concatenation of two lists of components. -/
def appendCL : CompList R E → CompList R E → CompList R E
  | .nil, ds => ds
  | .cons c cs, ds => .cons c (appendCL cs ds)

/-- Rebuild a parent component from one ancestor frame and the child
subtree. -/
def plugOne (c : Component R E) (f : Frame R E) : Component R E :=
  .node f.request f.extra_context (appendCL f.before (.cons c f.after))

/-- Rebuild the root of the whole tree from a component and its chain of
ancestor frames (innermost ancestor first). -/
def rootOf : Component R E → List (Frame R E) → Component R E
  | c, [] => c
  | c, f :: fs => rootOf (plugOne c f) fs

/-- An ancestor frame with its transient fields nulled and its sibling
subtrees stripped. -/
def stripFrame (f : Frame R E) : Frame R E :=
  ⟨none, none, stripList f.before, stripList f.after⟩

/-- Modelled from the spec: entering `CacheableComponent` on a component
that has a chain of parents first ascends to the root of the parent/child
tree and then strips the transient references across that whole tree. -/
def cacheEnterAt (c : Component R E) (fs : List (Frame R E)) : Component R E :=
  cacheEnter (rootOf c fs)

theorem stripList_appendCL :
    ∀ as bs : CompList R E,
      stripList (appendCL as bs) = appendCL (stripList as) (stripList bs)
  | .nil, _ => rfl
  | .cons c cs, bs => by
    rw [appendCL, stripList, stripList, stripList_appendCL cs bs, appendCL]

theorem strip_plugOne (c : Component R E) (f : Frame R E) :
    strip (plugOne c f) = plugOne (strip c) (stripFrame f) := by
  rw [plugOne, strip, stripList_appendCL, stripList, plugOne]
  rfl

theorem strip_rootOf (c : Component R E) (fs : List (Frame R E)) :
    strip (rootOf c fs) = rootOf (strip c) (fs.map stripFrame) := by
  induction fs generalizing c with
  | nil => rfl
  | cons f fs ih => rw [rootOf, List.map, rootOf, ih, strip_plugOne]

/-- C2: entering `CacheableComponent` on a component with a chain of parent
components strips the whole tree: during the scope the tree decomposes as
the stripped component plugged under its stripped ancestor frames, every
one of those ancestor frames carrying `none` for both `request` and
`extra_context`; exiting restores the whole tree — every ancestor's fields
included — to exactly its pre-entry value. -/
theorem cacheable_component_ancestors (c : Component R E)
    (fs : List (Frame R E)) :
    cacheEnterAt c fs = rootOf (strip c) (fs.map stripFrame) ∧
    (fs.map stripFrame).map Frame.request =
      List.replicate fs.length (none : Option R) ∧
    (fs.map stripFrame).map Frame.extra_context =
      List.replicate fs.length (none : Option E) ∧
    cacheExit (cacheEnterAt c fs) (rootOf c fs) = rootOf c fs := by
  refine ⟨strip_rootOf c fs, ?_, ?_, ?_⟩
  · rw [List.map_map]
    induction fs with
    | nil => rfl
    | cons f fs ih => rw [List.map, List.length, List.replicate, ih]; rfl
  · rw [List.map_map]
    induction fs with
    | nil => rfl
    | cons f fs ih => rw [List.map, List.length, List.replicate, ih]; rfl
  · rw [cacheEnterAt, cacheEnter]
    exact restore_strip (rootOf c fs)

end DjangoUnicorn
